import Mathlib

/-!
Verification development for the `backdropy` thread-local context library.

The core (`src/backdropy/context.py`) stores context as attributes of a
`threading.local` object: each attribute name is a context key and its value is
a Python list used as a per-key value stack.  `push` appends a `None` sentinel
to every existing per-key list and then `add`s the new assignments; `add`
appends a value to the named key's list (creating the attribute when absent, at
the end of the attribute dict, i.e. dict insertion order); `pop` iterates the
attribute dict, calls `list.pop()` on each per-key list (an `IndexError` on an
empty list is swallowed) and deletes the attribute when its list becomes empty.
Deleting an attribute while iterating `vars(self).items()` mutates the dict
being iterated, so CPython raises `RuntimeError: dictionary changed size during
iteration` at the next iterator step, aborting the loop there; the embedding
models this abort explicitly.  The `data` property flattens the state: for each
key it keeps the last truthy element of the per-key list (`[v for v in value
if v]` then `compressed[-1]`), in attribute-dict order.
-/

namespace Backdropy

/-- Model of the Python values stored in a context: `None`, booleans, integers,
strings, and references to mutable heap objects (used to analyse aliasing). -/
inductive PyVal where
  | none
  | bool (b : Bool)
  | int (n : Int)
  | str (s : String)
  | ref (a : Nat)
  deriving DecidableEq, Repr

/-- Python truthiness (`if v`) for the modelled values.  A reference denotes a
mutable object whose truthiness depends on the heap; the heap-aware variant is
`truthyH`.  Plain `truthy` is used where no reference values occur. -/
def truthy : PyVal → Bool
  | .none => false
  | .bool b => b
  | .int n => n != 0
  | .str s => s != ""
  | .ref _ => true

/-- The per-thread state of `ThreadContext`: the attribute dict `vars(self)`,
an insertion-ordered association list from key to its per-key value stack. -/
abbrev St := List (String × List PyVal)

/-- One assignment step of `ThreadContext.add`: `attr = getattr(self, key, [])`,
`attr.append(value)`, `setattr(self, key, attr)`.  An existing key keeps its
position in the attribute dict; a new key is appended at the end. -/
def addKV (st : St) (k : String) (v : PyVal) : St :=
  if st.any (fun e => e.1 == k) then
    st.map (fun e => if e.1 == k then (e.1, e.2 ++ [v]) else e)
  else
    st ++ [(k, [v])]

/-- `ThreadContext.add(**kwargs)`: fold the assignments in keyword order. -/
def add (st : St) (kvs : List (String × PyVal)) : St :=
  kvs.foldl (fun s kv => addKV s kv.1 kv.2) st

/-- `ThreadContext.push(**kwargs)`: append a `None` sentinel to every existing
per-key list, then `add` the new assignments. -/
def push (st : St) (kvs : List (String × PyVal)) : St :=
  add (st.map (fun e => (e.1, e.2 ++ [PyVal.none]))) kvs

/-- The loop of `ThreadContext.pop`: iterate the attribute dict in insertion
order; on each entry run `value.pop()` (an `IndexError` on an empty list is
swallowed, leaving the list empty) and, when the list is now empty,
`delattr(self, key)`.  A `delattr` shrinks the dict being iterated, so the next
iterator step raises `RuntimeError` and the remaining entries are left
untouched.  Returns the resulting state and whether `RuntimeError` was
raised. -/
def popLoop : St → St × Bool
  | [] => ([], false)
  | (k, vs) :: rest =>
    let vs' := vs.dropLast
    if vs'.isEmpty then (rest, true)
    else
      let r := popLoop rest
      ((k, vs') :: r.1, r.2)

/-- `ThreadContext.pop()`. -/
def popRun (st : St) : St × Bool := popLoop st

/-- The `ThreadContext.data` property: for each attribute in dict order, filter
its per-key list by truthiness (`[v for v in value if v]`) and keep the last
element when the filtered list is non-empty. -/
def data (st : St) : List (String × PyVal) :=
  st.filterMap (fun e => ((e.2.filter truthy).getLast?).map (fun v => (e.1, v)))

/-- One call against the context API. -/
inductive Op where
  | push (kvs : List (String × PyVal))
  | add (kvs : List (String × PyVal))
  | pop
  deriving DecidableEq, Repr

/-- Execute one call.  A `pop` that raises `RuntimeError` aborts straight-line
execution, modelled as `none`. -/
def step (st : St) : Op → Option St
  | .push kvs => some (push st kvs)
  | .add kvs => some (add st kvs)
  | .pop =>
    match popRun st with
    | (st1, false) => some st1
    | (_, true) => none

/-- Run a call sequence from a given state; a raised error aborts the run. -/
def runFrom (st : St) : List Op → Option St
  | [] => some st
  | op :: ops =>
    match step st op with
    | some st1 => runFrom st1 ops
    | none => none

/-- Run a call sequence on a fresh thread state (empty attribute dict). -/
def runOps (ops : List Op) : Option St := runFrom [] ops

/-- Result of a guarded body: a returned value or a raised exception. -/
inductive Outcome where
  | ok (v : PyVal)
  | exc (e : String)
  deriving DecidableEq, Repr

/-- The `contextual` wrapper (and the identically shaped `scope` context
manager and Django middleware): `try: Context.push(**vars); <body> finally:
Context.pop()`.  Per Python semantics, an exception raised by the `finally`
block replaces the body's pending result or exception. -/
def contextual (kvs : List (String × PyVal)) (body : St → St × Outcome)
    (st : St) : St × Outcome :=
  let st1 := push st kvs
  let br := body st1
  let pr := popRun br.1
  (pr.1, if pr.2 then Outcome.exc "RuntimeError" else br.2)

/-- A mutable Python object on the heap; lists are the representative mutable
object in this analysis. -/
abbrev PyObj := List PyVal

/-- The heap: the object at address `a` is `h[a]?`. -/
abbrev Heap := List PyObj

/-- Python truthiness relative to a heap: a reference is truthy iff the object
it points to is (a list is truthy iff non-empty); other values as `truthy`. -/
def truthyH (h : Heap) : PyVal → Bool
  | .ref a =>
    match h[a]? with
    | some o => !o.isEmpty
    | Option.none => true
  | v => truthy v

/-- `ThreadContext.data` evaluated against a heap: `add` stores the reference
itself (`attr.append(value)` — no copy), so truthiness and the observed object
are read through the heap current at snapshot time. -/
def dataH (h : Heap) (st : St) : List (String × PyVal) :=
  st.filterMap (fun e => ((e.2.filter (truthyH h)).getLast?).map (fun v => (e.1, v)))

/-- `ContextFormatter.format` iterates `Context.data` — a dict — with
`for key, value in Context.data`, which yields the KEYS and unpacks each key
string into `(key, value)`.  Unpacking a string succeeds only when it has
exactly two characters; otherwise Python raises `ValueError`. -/
def unpack2 (s : String) : Except String (Char × Char) :=
  match s.data with
  | [c1, c2] => Except.ok (c1, c2)
  | _ => Except.error "ValueError"

/-- The list comprehension `[f'[{key}={value}]' for key, value in Context.data]`
joined with `''.join`: each dict key is unpacked into two characters and
rendered as a bracket group; the first unpackable key raises `ValueError`. -/
def renderGroups : List String → Except String String
  | [] => Except.ok ""
  | k :: rest =>
    match unpack2 k with
    | Except.ok (c1, c2) =>
      (renderGroups rest).map
        (fun t => "[" ++ c1.toString ++ "=" ++ c2.toString ++ "]" ++ t)
    | Except.error e => Except.error e

/-- `ContextFormatter.format`: `msg` is the already-formatted record
(`super().format(record)`); the result is `f'{context} {msg}'`, i.e. the joined
bracket groups, a space, and the message — the space is emitted even when the
context is empty. -/
def formatRecord (d : List (String × PyVal)) (msg : String) : Except String String :=
  match renderGroups (d.map Prod.fst) with
  | Except.ok ctx => Except.ok (ctx ++ " " ++ msg)
  | Except.error e => Except.error e

/-- Per-thread states of the `threading.local`-backed `Context` singleton:
each thread identifier maps to its own attribute dict.  A thread with no entry
has not touched the context yet; `threading.local` gives it a fresh empty dict
on first access. -/
abbrev Threads := List (Nat × St)

/-- The state `vars(Context)` observed from thread `tid` (empty on first
access). -/
def getThread (g : Threads) (tid : Nat) : St := (List.lookup tid g).getD []

/-- Replace thread `tid`'s state (installing it when absent). -/
def setThread (g : Threads) (tid : Nat) (st : St) : Threads :=
  if g.any (fun e => e.1 == tid) then
    g.map (fun e => if e.1 == tid then (e.1, st) else e)
  else
    g ++ [(tid, st)]

/-- Apply one call, keeping the state a raising `pop` leaves behind. -/
def stepTotal (st : St) : Op → St
  | .push kvs => push st kvs
  | .add kvs => add st kvs
  | .pop => (popRun st).1

/-- Perform one context call from thread `tid`: only that thread's
`threading.local` dict is read or written. -/
def applyOp (g : Threads) (tid : Nat) (op : Op) : Threads :=
  setThread g tid (stepTotal (getThread g tid) op)

/-- Record a key as seen, keeping the position of its first occurrence. -/
def insKey (acc : List String) (k : String) : List String :=
  if acc.any (fun x => x == k) then acc else acc ++ [k]

/-- Record the keys of one call's assignments in keyword order. -/
def insKeys (acc : List String) (kvs : List (String × PyVal)) : List String :=
  kvs.foldl (fun a kv => insKey a kv.1) acc

/-- Keys contributed by one call. -/
def opKeys (acc : List String) : Op → List String
  | .push kvs => insKeys acc kvs
  | .add kvs => insKeys acc kvs
  | .pop => acc

/-- The keys of a call sequence in first-seen order. -/
def firstSeen (ops : List Op) : List String := ops.foldl opKeys []

/-- The flattened-view entry one attribute contributes, if any. -/
def entryOf (e : String × List PyVal) : Option (String × PyVal) :=
  ((e.2.filter truthy).getLast?).map (fun v => (e.1, v))

theorem data_eq_filterMap (st : St) : data st = st.filterMap entryOf := rfl

theorem data_cons (e : String × List PyVal) (st : St) :
    data (e :: st) =
      match entryOf e with
      | Option.none => data st
      | some p => p :: data st := by
  rw [data_eq_filterMap, data_eq_filterMap, List.filterMap_cons]
  cases entryOf e <;> rfl

theorem entryOf_key (e : String × List PyVal) (p : String × PyVal)
    (h : entryOf e = some p) : p.1 = e.1 := by
  unfold entryOf at h
  cases hg : (e.2.filter truthy).getLast? with
  | none => rw [hg] at h; simp at h
  | some w =>
    rw [hg] at h
    simp only [Option.map_some', Option.some.injEq] at h
    rw [← h]

/-- The attribute update `add` performs on one entry: append `v` to the list
of an entry whose key is `k`, leave other entries alone. -/
def bump (k : String) (v : PyVal) (e : String × List PyVal) :
    String × List PyVal :=
  if e.1 == k then (e.1, e.2 ++ [v]) else e

theorem bump_of_ne (k : String) (v : PyVal) (e : String × List PyVal)
    (he : (e.1 == k) = false) : bump k v e = e := by
  simp [bump, he]

theorem entryOf_bump_falsy (k : String) (v : PyVal) (e : String × List PyVal)
    (hv : truthy v = false) : entryOf (bump k v e) = entryOf e := by
  by_cases he : e.1 == k
  · have h1 : (e.2 ++ [v]).filter truthy = e.2.filter truthy := by
      simp [List.filter_append, List.filter_cons, hv]
    simp only [bump, he, if_true, entryOf, h1]
  · rw [bump_of_ne k v e (by simpa using he)]

theorem entryOf_bump_truthy (k : String) (v : PyVal) (e : String × List PyVal)
    (hv : truthy v = true) (he : (e.1 == k) = true) :
    entryOf (bump k v e) = some (e.1, v) := by
  have h1 : (e.2 ++ [v]).filter truthy = e.2.filter truthy ++ [v] := by
    simp [List.filter_append, List.filter_cons, hv]
  simp only [bump, he, if_true, entryOf, h1, List.getLast?_concat,
    Option.map_some']

/-- `addKV` restated through `bump`. -/
theorem addKV_eq (st : St) (k : String) (v : PyVal) :
    addKV st k v =
      if st.any (fun e => e.1 == k) then st.map (bump k v)
      else st ++ [(k, [v])] := rfl

/-- Appending a falsy value to the entries matching `k` leaves the flattened
view unchanged: the truthiness filter drops the new element. -/
theorem data_map_bump_falsy (st : St) (k : String) (v : PyVal)
    (hv : truthy v = false) :
    data (st.map (bump k v)) = data st := by
  induction st with
  | nil => rfl
  | cons e st ih =>
    rw [List.map_cons, data_cons, data_cons, entryOf_bump_falsy k v e hv]
    cases entryOf e with
    | none => exact ih
    | some p => rw [ih]

/-- Every key of the flattened view is a key of the state. -/
theorem data_key_mem (st : St) (p : String × PyVal) (h : p ∈ data st) :
    ∃ e ∈ st, p.1 = e.1 := by
  rw [data_eq_filterMap] at h
  rcases List.mem_filterMap.mp h with ⟨e, he, hfe⟩
  exact ⟨e, he, entryOf_key e p hfe⟩

/-- A key absent from a state is absent from its flattened view. -/
theorem lookup_data_none (st : St) (k : String)
    (h : ∀ e ∈ st, e.1 ≠ k) : List.lookup k (data st) = none := by
  rw [List.lookup_eq_none_iff]
  intro p hp
  rcases data_key_mem st p hp with ⟨e, he, hpe⟩
  have : p.1 ≠ k := hpe ▸ h e he
  simpa using Ne.symm this

/-- When some entry of `st` has key `k`, appending a truthy value `v` to every
matching entry makes the flattened view map `k` to `v`. -/
theorem lookup_data_map_bump (st : St) (k : String) (v : PyVal)
    (hv : truthy v = true) (h : st.any (fun e => e.1 == k) = true) :
    List.lookup k (data (st.map (bump k v))) = some v := by
  induction st with
  | nil => simp at h
  | cons e st ih =>
    rw [List.map_cons, data_cons]
    by_cases he : e.1 == k
    · rw [entryOf_bump_truthy k v e hv he]
      have hke : (k == e.1) = true := by
        have : e.1 = k := by simpa using he
        simp [this]
      rw [List.lookup_cons]
      simp [hke]
    · have htail : st.any (fun e => e.1 == k) = true := by
        have hconsany := h
        rw [List.any_cons] at hconsany
        simpa [he] using hconsany
      rw [bump_of_ne k v e (by simpa using he)]
      cases hg : entryOf e with
      | none => exact ih htail
      | some p =>
        have hpk : p.1 = e.1 := entryOf_key e p hg
        have hne : (k == p.1) = false := by
          have h1 : ¬ e.1 = k := by simpa using he
          rw [hpk]
          exact beq_false_of_ne (fun hkk => h1 hkk.symm)
        obtain ⟨p1, p2⟩ := p
        rw [List.lookup_cons]
        simp only [hne] at *
        simpa using ih htail

/-- C1: after `push(a=1)`; `push(a=2)` the snapshot maps `a` to `2` and after
one `pop()` it maps `a` to `1` again, as the claim states; but after the final
`pop()` the snapshot is `{a: 1}`, not the claimed `{}`: the second push grew
`a`'s per-key list by two elements (`None` sentinel plus the value) while each
pop removes only one, so one contribution of `a` survives its matching pop. -/
theorem claim_C1_shadow_restore_final_pop_not_empty :
    data (push (push [] [("a", PyVal.int 1)]) [("a", PyVal.int 2)]) =
      [("a", PyVal.int 2)] ∧
    popRun (push (push [] [("a", PyVal.int 1)]) [("a", PyVal.int 2)]) =
      ([("a", [PyVal.int 1, PyVal.none])], false) ∧
    data [("a", [PyVal.int 1, PyVal.none])] = [("a", PyVal.int 1)] ∧
    popRun [("a", [PyVal.int 1, PyVal.none])] = ([("a", [PyVal.int 1])], false) ∧
    data [("a", [PyVal.int 1])] = [("a", PyVal.int 1)] := by
  decide

/-- C2: `add` appends to the key's per-key list instead of overwriting within
the frame, while `pop` removes a single element per key; so after `push(x=1)`;
`add(x=2)` on the top frame, `pop()` leaves the snapshot at `{x: 1}` instead of
restoring the pre-push snapshot `{}`. -/
theorem claim_C2_pop_does_not_restore_after_add :
    data ([] : St) = [] ∧
    popRun (add (push [] [("x", PyVal.int 1)]) [("x", PyVal.int 2)]) =
      ([("x", [PyVal.int 1])], false) ∧
    data [("x", [PyVal.int 1])] = [("x", PyVal.int 1)] := by
  decide

/-- C3: on a fresh stack `pop()` is indeed a harmless no-op (the attribute dict
is empty), but when the root holds data placed by `add` — here `add(a=1)` with
no prior push — `pop()` removes that data and raises `RuntimeError`: `a`'s list
empties, `delattr` shrinks the dict mid-iteration, and the snapshot drops from
`{a: 1}` to `{}` instead of staying unchanged. -/
theorem claim_C3_root_pop_destroys_add_data :
    popRun ([] : St) = ([], false) ∧
    data (add [] [("a", PyVal.int 1)]) = [("a", PyVal.int 1)] ∧
    popRun (add [] [("a", PyVal.int 1)]) = ([], true) ∧
    data ([] : St) = ([] : List (String × PyVal)) := by
  decide

/-- C4: the balanced sequence `push(a=1); push(a=2); pop(); pop()` completes
without raising, yet the final snapshot is `{a: 1}` rather than the initial
snapshot `{}` — round-trip balance fails because the shadowing push added two
elements to `a`'s list and each pop removed only one. -/
theorem claim_C4_balanced_sequence_not_identity :
    (runOps [Op.push [("a", PyVal.int 1)], Op.push [("a", PyVal.int 2)],
      Op.pop, Op.pop]).map data = some [("a", PyVal.int 1)] ∧
    data ([] : St) = [] := by
  decide

/-- C5: invoking a wrapped callable bound with `{x: 9, y: 8}` on a fresh stack,
with a body that raises `E`: the `finally` `pop()` empties `x`'s list, whose
`delattr` aborts the cleanup loop with `RuntimeError` before `y` is processed.
The caller observes `RuntimeError` instead of the body's own failure `E`
(Python's `finally` replaces the pending exception), and the snapshot still
contains the scope's assignment `y = 8`. -/
theorem claim_C5_cleanup_raises_and_leaks :
    contextual [("x", PyVal.int 9), ("y", PyVal.int 8)]
        (fun s => (s, Outcome.exc "E")) [] =
      ([("y", [PyVal.int 8])], Outcome.exc "RuntimeError") ∧
    data [("y", [PyVal.int 8])] = [("y", PyVal.int 8)] := by
  constructor
  · rfl
  · decide

/-- C6: `add` stores the supplied value object itself (`attr.append(value)` —
no copy of any kind), so the frame records the reference.  Pushing `x` bound to
the list object at address `0` (initially `[1]`) and then mutating that object
to `[1, 2]` leaves the snapshot returning the same reference, which now
dereferences to the mutated `[1, 2]` — not the `[1]` recorded at push time as
the claim requires. -/
theorem claim_C6_no_copy_mutation_visible :
    List.lookup "x" (dataH ([[PyVal.int 1]].set 0 [PyVal.int 1, PyVal.int 2])
        (push [] [("x", PyVal.ref 0)])) = some (PyVal.ref 0) ∧
    ([[PyVal.int 1]].set 0 [PyVal.int 1, PyVal.int 2])[0]? =
      some [PyVal.int 1, PyVal.int 2] ∧
    ([[PyVal.int 1]] : Heap)[0]? = some [PyVal.int 1] := by
  decide

/-- C7: with snapshot `{request_id: "r1"}` the formatter raises `ValueError`
(it iterates the snapshot dict, yielding the key string `"request_id"`, and
unpacking a 10-character string into `key, value` fails) instead of rendering
`[request_id=r1] start`; with an empty snapshot it returns `" idle"` — a
leading space, not the message unchanged; and a 2-character key `"ab"` is
"rendered" as `[a=b]` from its own characters, ignoring the value. -/
theorem claim_C7_formatter_unpacks_keys :
    formatRecord [("request_id", PyVal.str "r1")] "start" =
      Except.error "ValueError" ∧
    formatRecord [] "idle" = Except.ok " idle" ∧
    formatRecord [("ab", PyVal.int 1)] "m" = Except.ok "[a=b] m" :=
  ⟨rfl, rfl, rfl⟩

/-- C9: the snapshot's truthiness filter.  Adding an assignment with a falsy
value (here `vF`) leaves the flattened view completely unchanged — the key
either keeps showing an older truthy value or stays absent — while adding a
truthy value `vT` makes the view map the key to it; so for every key the view
reports the most recent truthy contribution and falsy assignments are
invisible. -/
theorem claim_C9_truthiness_filter (st : St) (k : String) (vF vT : PyVal)
    (hF : truthy vF = false) (hT : truthy vT = true) :
    data (addKV st k vF) = data st ∧
    List.lookup k (data (addKV st k vT)) = some vT := by
  constructor
  · rw [addKV_eq]
    by_cases h : st.any (fun e => e.1 == k)
    · rw [if_pos h]
      exact data_map_bump_falsy st k vF hF
    · rw [if_neg h]
      rw [data_eq_filterMap, List.filterMap_append]
      have hemp : List.filterMap entryOf [(k, [vF])] = [] := by
        simp [entryOf, List.filter_cons, hF]
      rw [hemp, List.append_nil, ← data_eq_filterMap]
  · rw [addKV_eq]
    by_cases h : st.any (fun e => e.1 == k)
    · rw [if_pos h]
      exact lookup_data_map_bump st k vT hT h
    · rw [if_neg h]
      have hnomem : ∀ e ∈ st, e.1 ≠ k := by
        intro e he heq
        exact h (List.any_eq_true.mpr ⟨e, he, by simp [heq]⟩)
      have hone : List.filterMap entryOf [(k, [vT])] = [(k, vT)] := by
        simp [entryOf, List.filter_cons, hT]
      rw [data_eq_filterMap, List.filterMap_append, hone, ← data_eq_filterMap,
        List.lookup_append, lookup_data_none st k hnomem]
      simp

/-- Witness for C9 at a concrete state: adding `b = 0` (falsy) to `{a: [1]}`
leaves the snapshot unchanged, and adding `b = 7` (truthy) surfaces it. -/
theorem claim_C9_truthiness_filter_witness :
    data (addKV [("a", [PyVal.int 1])] "b" (PyVal.int 0)) =
      data [("a", [PyVal.int 1])] ∧
    List.lookup "b" (data (addKV [("a", [PyVal.int 1])] "b" (PyVal.int 7))) =
      some (PyVal.int 7) :=
  claim_C9_truthiness_filter [("a", [PyVal.int 1])] "b" (PyVal.int 0)
    (PyVal.int 7) (by decide) (by decide)

theorem keys_map_pad (st : St) :
    (st.map (fun e => (e.1, e.2 ++ [PyVal.none]))).map Prod.fst =
      st.map Prod.fst := by
  rw [List.map_map]
  rfl

theorem keys_addKV (st : St) (k : String) (v : PyVal) :
    (addKV st k v).map Prod.fst = insKey (st.map Prod.fst) k := by
  have hany : (st.map Prod.fst).any (fun x => x == k) =
      st.any (fun e => e.1 == k) := by
    induction st with
    | nil => rfl
    | cons e st ih => simp [List.any_cons, ih]
  rw [addKV_eq, insKey, hany]
  by_cases h : st.any (fun e => e.1 == k)
  · rw [if_pos h, if_pos h, List.map_map]
    apply List.map_congr_left
    intro e _
    by_cases he : e.1 == k <;> simp [bump, he, Function.comp]
  · rw [if_neg h, if_neg h, List.map_append]
    rfl

theorem keys_add (st : St) (kvs : List (String × PyVal)) :
    (add st kvs).map Prod.fst = insKeys (st.map Prod.fst) kvs := by
  induction kvs generalizing st with
  | nil => rfl
  | cons kv kvs ih =>
    rw [show add st (kv :: kvs) = add (addKV st kv.1 kv.2) kvs from rfl]
    rw [ih, keys_addKV]
    rfl

theorem keys_push (st : St) (kvs : List (String × PyVal)) :
    (push st kvs).map Prod.fst = insKeys (st.map Prod.fst) kvs := by
  rw [push, keys_add, keys_map_pad]

/-- A `pop` that completes without raising removes one element from every
per-key list and deletes no attribute, so the key set and its order are
unchanged. -/
theorem keys_popLoop (st : St) : ∀ st' : St, popLoop st = (st', false) →
    st'.map Prod.fst = st.map Prod.fst := by
  induction st with
  | nil =>
    intro st' h
    simp only [popLoop, Prod.mk.injEq] at h
    rw [← h.1]
  | cons e st ih =>
    intro st' h
    obtain ⟨k, vs⟩ := e
    cases hp : popLoop st with
    | mk rest' raised =>
      simp only [popLoop, hp] at h
      by_cases hemp : vs.dropLast.isEmpty
      · rw [if_pos hemp] at h
        simp at h
      · rw [if_neg hemp] at h
        rw [Prod.mk.injEq] at h
        obtain ⟨h1, h2⟩ := h
        rw [← h1, List.map_cons, List.map_cons]
        rw [ih rest' (by rw [hp, h2])]

theorem step_keys (st st' : St) (op : Op) (h : step st op = some st') :
    st'.map Prod.fst = opKeys (st.map Prod.fst) op := by
  cases op with
  | push kvs =>
    simp only [step, Option.some.injEq] at h
    rw [← h, keys_push]
    rfl
  | add kvs =>
    simp only [step, Option.some.injEq] at h
    rw [← h, keys_add]
    rfl
  | pop =>
    simp only [step] at h
    cases hp : popRun st with
    | mk st1 raised =>
      rw [hp] at h
      cases raised with
      | false =>
        simp only [Option.some.injEq] at h
        rw [← h]
        exact keys_popLoop st st1 hp
      | true => simp at h

theorem runFrom_keys (ops : List Op) : ∀ st0 st : St,
    runFrom st0 ops = some st →
    st.map Prod.fst = ops.foldl opKeys (st0.map Prod.fst) := by
  induction ops with
  | nil =>
    intro st0 st h
    simp only [runFrom, Option.some.injEq] at h
    rw [← h, List.foldl_nil]
  | cons op ops ih =>
    intro st0 st h
    simp only [runFrom] at h
    cases hs : step st0 op with
    | none => rw [hs] at h; simp at h
    | some s1 =>
      rw [hs] at h
      rw [List.foldl_cons, ← step_keys st0 s1 op hs]
      exact ih s1 st h

/-- The flattened view lists a subset of the state's keys, in state order. -/
theorem data_keys_sublist (st : St) :
    List.Sublist ((data st).map Prod.fst) (st.map Prod.fst) := by
  induction st with
  | nil => simp [data]
  | cons e st ih =>
    rw [data_cons, List.map_cons]
    cases hg : entryOf e with
    | none => exact List.Sublist.cons e.1 ih
    | some p =>
      rw [List.map_cons]
      have hpe : p.1 = e.1 := entryOf_key e p hg
      rw [hpe]
      exact List.Sublist.cons₂ e.1 ih

/-- C8: deterministic snapshot iteration order.  `runOps` is a pure function
of the call sequence, so two runs of the same sequence yield the same state
and hence identical snapshots; and after any completed call sequence the
snapshot's keys appear in first-seen insertion order — its key list is a
subsequence of the sequence's keys ordered by first occurrence (keys whose
contributions are all falsy are skipped, keeping the relative order of the
rest). -/
theorem claim_C8_snapshot_key_order (ops : List Op) (st : St)
    (h : runOps ops = some st) :
    List.Sublist ((data st).map Prod.fst) (firstSeen ops) := by
  have hk := runFrom_keys ops [] st h
  rw [List.map_nil] at hk
  rw [firstSeen, ← hk]
  exact data_keys_sublist st

/-- Witness for C8: after `push(a=1)` then `add(b=2)` the snapshot's key order
`[a, b]` follows the first-seen order of the sequence. -/
theorem claim_C8_snapshot_key_order_witness :
    List.Sublist
      ((data [("a", [PyVal.int 1]), ("b", [PyVal.int 2])]).map Prod.fst)
      (firstSeen [Op.push [("a", PyVal.int 1)], Op.add [("b", PyVal.int 2)]]) :=
  claim_C8_snapshot_key_order
    [Op.push [("a", PyVal.int 1)], Op.add [("b", PyVal.int 2)]]
    [("a", [PyVal.int 1]), ("b", [PyVal.int 2])] (by decide)

theorem lookup_map_setEntry (g : Threads) (tid tid' : Nat) (st : St)
    (h : (tid' == tid) = false) :
    List.lookup tid' (g.map (fun e => if e.1 == tid then (e.1, st) else e)) =
      List.lookup tid' g := by
  induction g with
  | nil => rfl
  | cons e g ih =>
    rw [List.map_cons]
    by_cases he : e.1 == tid
    · have he1 : e.1 = tid := by simpa using he
      have hne : (tid' == e.1) = false := by rw [he1]; exact h
      rw [if_pos he, List.lookup_cons, List.lookup_cons]
      simp only [hne]
      exact ih
    · rw [if_neg he, List.lookup_cons, List.lookup_cons]
      by_cases ht : tid' == e.1
      · simp only [ht]
      · simp only [ht]
        exact ih

theorem lookup_append_singleEntry (g : Threads) (tid tid' : Nat) (st : St)
    (h : (tid' == tid) = false) :
    List.lookup tid' (g ++ [(tid, st)]) = List.lookup tid' g := by
  rw [List.lookup_append]
  have hnone : List.lookup tid' [(tid, st)] = Option.none := by
    rw [List.lookup_cons]
    simp [h]
  rw [hnone]
  cases List.lookup tid' g <;> rfl

/-- Replacing the state of thread `tid` never changes the entry another
thread's lookup finds. -/
theorem lookup_setThread (g : Threads) (tid tid' : Nat) (st : St)
    (h : tid' ≠ tid) :
    List.lookup tid' (setThread g tid st) = List.lookup tid' g := by
  have hbeq : (tid' == tid) = false := beq_false_of_ne h
  rw [setThread]
  by_cases hany : g.any (fun e => e.1 == tid)
  · rw [if_pos hany]
    exact lookup_map_setEntry g tid tid' st hbeq
  · rw [if_neg hany]
    exact lookup_append_singleEntry g tid tid' st hbeq

theorem lookup_none_of_fresh (g : Threads) (tid : Nat)
    (h : ∀ p ∈ g, p.1 ≠ tid) : List.lookup tid g = Option.none := by
  rw [List.lookup_eq_none_iff]
  intro p hp
  simpa using Ne.symm (h p hp)

/-- C10: thread isolation.  A `push`, `add` or `pop` performed from thread
`tid` never changes the state (hence the snapshot) another thread `tid'`
observes through the `threading.local`-backed `Context`; and a thread with no
entry yet — one that has not touched the context, regardless of its creator's
stack — observes the empty state. -/
theorem claim_C10_thread_isolation (g : Threads) (tid tid' : Nat) (op : Op) :
    (tid ≠ tid' → getThread (applyOp g tid op) tid' = getThread g tid') ∧
    ((∀ p ∈ g, p.1 ≠ tid') → getThread g tid' = []) := by
  constructor
  · intro h
    rw [applyOp, getThread, getThread,
      lookup_setThread g tid tid' _ (Ne.symm h), getThread]
  · intro h
    rw [getThread, lookup_none_of_fresh g tid' h]
    rfl

/-- Witness for C10: thread 5 pushes while thread 7 — fresh, never having
touched the context — still observes the empty state, unchanged by the push. -/
theorem claim_C10_thread_isolation_witness :
    getThread (applyOp [(5, [("a", [PyVal.int 1])])] 5
      (Op.push [("b", PyVal.int 2)])) 7 =
      getThread [(5, [("a", [PyVal.int 1])])] 7 ∧
    getThread [(5, [("a", [PyVal.int 1])])] 7 = [] :=
  ⟨(claim_C10_thread_isolation [(5, [("a", [PyVal.int 1])])] 5 7
      (Op.push [("b", PyVal.int 2)])).1 (by decide),
   (claim_C10_thread_isolation [(5, [("a", [PyVal.int 1])])] 5 7
      (Op.push [("b", PyVal.int 2)])).2 (by decide)⟩

end Backdropy
